import Mathlib

/-!
# The RVV vector coprocessor test harness (`sim_main.cpp`)

A shallow embedding of `main` of `sim_main.cpp`: the stimulus the harness
applies to the Verilated model `Vrvv_vector_system` (clock, the two resets,
the instruction word, the `vl` poke), the polling of `ready`, and the text it
writes to `std::cout`.

The Verilated model itself is generated from RTL and is not part of the
source file; it enters the development as a parameter (`Dut`).
-/

namespace RvvHarness

/-! ## Instruction words -/

/-- The bit field `w[hi:lo]` of a word. -/
def bits (w hi lo : Nat) : Nat := (w / 2 ^ lo) % 2 ^ (hi + 1 - lo)

/-- Line 40: `0b0 000 01010001 00001 111 00010 1010111` (the `vsetvli` word). -/
def instr_vsetvli : Nat := 0b00000101000100001111000101010111

/-- Line 55: `0b000000 1 00001 00010 011 00010 1010111` (commented `vadd.vi v2, v2, 2`). -/
def instr_vadd : Nat := 0b00000010000100010011000101010111

/-- Line 87: `0b010 0 00 1 00000 00100 101 00010 0100111` (commented `vse16.v`). -/
def instr_vse : Nat := 0b01000010000000100101000100100111

/-- Line 111: `0b01000010000000100000000000000111` (commented `vle8.v`). -/
def instr_vle : Nat := 0b01000010000000100000000000000111

/-- Sign extension of a 5-bit immediate field. -/
def sext5 (x : Nat) : Int := if x < 16 then (x : Int) else (x : Int) - 32

/-- Modelled from the spec: the element width in bits that a `vsew` field
selects. The decoder is part of the core, which is not in the source file;
the table is that of the RISC-V V encoding, 8, 16, 32, 64 for 0, 1, 2, 3. -/
def sewBits (vsew : Nat) : Nat := 8 * 2 ^ vsew

/-- The size in bits of `vreg_out` as the harness reads it: 16 words (line 65)
of 32 bits each. -/
def vregBits : Nat := 16 * 32

/-! ## The device under test -/

/-- The input pins of `Vrvv_vector_system` that the harness drives. -/
structure Inputs where
  clk : Bool
  rst : Bool
  alu_rst : Bool
  instr : Nat
  vl : Nat
deriving DecidableEq, Repr

/-- The Verilated model as the harness sees it: `eval()` advances the internal
state from the current pin values, `ready` and the sixteen 32-bit words of
`vreg_out` are read back from it. The model is generated code that is not in
the source file, so it is a parameter. -/
structure Dut (σ : Type) where
  eval : σ → Inputs → σ
  ready : σ → Bool
  vreg_out : σ → Nat → Nat

/-! ## `std::cout` -/

/-- The part of the state of `std::cout` that the harness touches: the text
written so far, the base flag, the fill character and the pending field width. -/
structure OStream where
  text : List Char
  hex : Bool
  fill : Char
  width : Nat
deriving DecidableEq, Repr

/-- The stream at program start: decimal, fill is a blank, no field width. -/
def OStream.init : OStream := ⟨[], false, ' ', 0⟩

/-- Right-adjust `cs` in a field of `w` characters padded with `c`. -/
def padLeft (w : Nat) (c : Char) (cs : List Char) : List Char :=
  List.replicate (w - cs.length) c ++ cs

/-- `os << "literal"`: formatted insertion of a character string; the field
width applies and is reset to 0. -/
def OStream.putStr (os : OStream) (s : String) : OStream :=
  { os with text := os.text ++ padLeft os.width os.fill s.toList, width := 0 }

/-- `os << x` for an unsigned 32-bit `x`: digits in the current base (lowercase
in base 16), right-adjusted in the field; the field width is reset to 0. -/
def OStream.putU32 (os : OStream) (x : Nat) : OStream :=
  { os with
    text := os.text ++
      padLeft os.width os.fill (Nat.toDigits (if os.hex then 16 else 10) (x % 2 ^ 32)),
    width := 0 }

/-- `os << std::hex`. -/
def OStream.setHex (os : OStream) : OStream := { os with hex := true }

/-- `os << std::dec`. -/
def OStream.setDec (os : OStream) : OStream := { os with hex := false }

/-- `os << std::setfill(c)`. -/
def OStream.setfill (os : OStream) (c : Char) : OStream := { os with fill := c }

/-- `os << std::setw(n)`. -/
def OStream.setw (os : OStream) (n : Nat) : OStream := { os with width := n }

/-- `os << std::endl`. -/
def OStream.endl (os : OStream) : OStream := { os with text := os.text ++ ['\n'] }

/-- Lines 65 to 68: `for (int j = 15; j >= 0; --j)` writing `vreg_out[j]`;
the argument counts the words still to be written, so word `j` is written
when `j + 1` remain. -/
def printWords (v : Nat → Nat) : Nat → OStream → OStream
  | 0, os => os
  | j + 1, os =>
    printWords v j
      ((((os.setHex.setfill '0').setw 8).putU32 (v j)).putStr " ")

/-- Lines 63 to 69: the `vreg_out = 0x...` line. -/
def printVreg (v : Nat → Nat) (os : OStream) : OStream :=
  ((printWords v 16 (os.putStr "vreg_out = 0x")).setDec).endl

/-- The sixteen lowercase hexadecimal digits. -/
def hexDigits : List Char := "0123456789abcdef".toList

/-- The lowercase hexadecimal digit of a value below 16. -/
def hexDigit (k : Nat) : Char := hexDigits.getD k '0'

/-- The expected rendering of a 32-bit word: its eight hexadecimal digits,
most significant first, leading zeros included. -/
def hexWord (x : Nat) : List Char :=
  [hexDigit (x / 16 ^ 7 % 16), hexDigit (x / 16 ^ 6 % 16), hexDigit (x / 16 ^ 5 % 16),
   hexDigit (x / 16 ^ 4 % 16), hexDigit (x / 16 ^ 3 % 16), hexDigit (x / 16 ^ 2 % 16),
   hexDigit (x / 16 ^ 1 % 16), hexDigit (x / 16 ^ 0 % 16)]

/-- The expected `vreg_out` line: the prefix, then the words 15 down to 0,
each as eight digits followed by one blank, then the end of line. -/
def vregLine (v : Nat → Nat) : List Char :=
  "vreg_out = 0x".toList
    ++ (([15, 14, 13, 12, 11, 10, 9, 8, 7, 6, 5, 4, 3, 2, 1, 0].map
          fun j => hexWord (v j % 2 ^ 32) ++ [' ']).flatten
    ++ ['\n'])

/-- The `e` low base-16 digits of `n` as `Nat.digitChar` writes them, most
significant first. -/
def fixedHex : Nat → Nat → List Char
  | 0, _ => []
  | e + 1, n => fixedHex e (n / 16) ++ [Nat.digitChar (n % 16)]

/-! ## The harness -/

/-- The call sites of `top->eval()` in `main`. -/
inductive Site
  /-- line 33, the initial reset loop -/
  | reset
  /-- line 43, the two evaluations given to `vsetvli` -/
  | vsetvli
  /-- line 50, the unit-reset pulse after `vsetvli` -/
  | pulse1
  /-- line 60, polling for the add -/
  | vaddPoll
  /-- line 72, the four evaluations after `ready` was seen for the add -/
  | vaddSettle
  /-- line 82, the unit-reset pulse after the add -/
  | pulse2
  /-- line 94, polling for the store -/
  | vsePoll
  /-- line 106, the unit-reset pulse after the store -/
  | pulse3
  /-- line 114, polling for the load -/
  | vlePoll
deriving DecidableEq, Repr

/-- One call of `top->eval()`: where it was made, the pin values it saw, and
the value of `top->ready` if the harness read it right after. -/
structure Record where
  site : Site
  pins : Inputs
  ready : Option Bool
deriving DecidableEq, Repr

/-- The state of `main`: the pins, the state of the model, whether a waveform
file is open (`tfp`), `main_time`, `std::cout`, and the history of
evaluations made so far. -/
structure Sim (σ : Type) where
  top : Inputs
  dut : σ
  tfp : Bool
  main_time : Nat
  cout : OStream
  log : List Record

/-- The recurring three lines `top->clk = !top->clk; top->eval();
if (tfp) tfp->dump(main_time++);`. With `poll` the harness reads `top->ready`
afterwards, which the history records. -/
def tick {σ : Type} (d : Dut σ) (site : Site) (poll : Bool) (s : Sim σ) : Sim σ :=
  let top := { s.top with clk := !s.top.clk }
  let dut := d.eval s.dut top
  { s with
    top := top
    dut := dut
    main_time := if s.tfp then s.main_time + 1 else s.main_time
    log := s.log ++ [⟨site, top, if poll then some (d.ready dut) else none⟩] }

/-- A counted loop `for (int i = 0; i < n; ++i) body`. -/
def repeatN {σ : Type} (body : Sim σ → Sim σ) : Nat → Sim σ → Sim σ
  | 0, s => s
  | n + 1, s => repeatN body n (body s)

/-- A polling loop `for (...; i < n; ...) { tick; if (top->ready) { onReady; break; } }`;
the argument counts the iterations left. -/
def pollLoop {σ : Type} (d : Dut σ) (site : Site) (onReady : Sim σ → Sim σ) :
    Nat → Sim σ → Sim σ
  | 0, s => s
  | n + 1, s =>
    let s1 := tick d site true s
    if d.ready s1.dut then onReady s1 else pollLoop d site onReady n s1

/-- Assignment to `top->rst`. -/
def setRst {σ : Type} (b : Bool) (s : Sim σ) : Sim σ := { s with top := { s.top with rst := b } }

/-- Assignment to `top->alu_rst`. -/
def setAluRst {σ : Type} (b : Bool) (s : Sim σ) : Sim σ :=
  { s with top := { s.top with alu_rst := b } }

/-- Assignment to `top->instr`. -/
def setInstr {σ : Type} (w : Nat) (s : Sim σ) : Sim σ :=
  { s with top := { s.top with instr := w } }

/-- Lines 63 to 75, the body run when `ready` is seen for the add. -/
def vaddReady {σ : Type} (d : Dut σ) (s : Sim σ) : Sim σ :=
  repeatN (tick d .vaddSettle false) 4
    { s with cout := printVreg (d.vreg_out s.dut) s.cout }

/-- Line 97. -/
def vseReady {σ : Type} (s : Sim σ) : Sim σ :=
  { s with cout := (s.cout.putStr "vse16.v complete").endl }

/-- Line 117. -/
def vleReady {σ : Type} (s : Sim σ) : Sim σ :=
  { s with cout := (s.cout.putStr "vle8.v complete").endl }

/-- Lines 26 to 30: the pin values before the first evaluation. -/
def initTop : Inputs := { clk := false, rst := true, alu_rst := true, instr := 0, vl := 8 }

/-- The body of `main`, lines 25 to 120, for a model `d` starting in state
`dut0`; `tfp` says whether tracing (`VM_TRACE`) is compiled in. -/
def main {σ : Type} (d : Dut σ) (tfp : Bool) (dut0 : σ) : Sim σ :=
  -- Reset
  let s : Sim σ :=
    { top := initTop, dut := dut0, tfp := tfp, main_time := 0,
      cout := OStream.init, log := [] }
  let s := repeatN (tick d .reset false) 5 s
  let s := setRst false s
  let s := setAluRst false s
  -- vsetvli
  let s := setInstr instr_vsetvli s
  let s := repeatN (tick d .vsetvli false) 2 s
  -- pulse ALU reset between instructions
  let s := setAluRst true s
  let s := tick d .pulse1 false s
  let s := setAluRst false s
  -- vadd.vi
  let s := setInstr instr_vadd s
  let s := pollLoop d .vaddPoll (vaddReady d) 100 s
  -- ALU reset between instructions
  let s := setAluRst true s
  let s := tick d .pulse2 false s
  let s := setAluRst false s
  -- vse16.v
  let s := setInstr instr_vse s
  let s := pollLoop d .vsePoll vseReady 100 s
  -- ALU reset between instructions
  let s := setAluRst true s
  let s := tick d .pulse3 false s
  let s := setAluRst false s
  -- fourth instruction
  let s := setInstr instr_vle s
  pollLoop d .vlePoll vleReady 100 s

/-! ## Sample models -/

/-- A model whose `ready` is never asserted. -/
def neverReady : Dut Unit := ⟨fun _ _ => (), fun _ => false, fun _ _ => 0⟩

/-- A model that only counts evaluations; `rd n` is the value of `ready` and
`vr n` the value of `vreg_out` after `n` evaluations. -/
def oracle (rd : Nat → Bool) (vr : Nat → Nat → Nat) : Dut Nat :=
  ⟨fun n _ => n + 1, rd, vr⟩

/-- A model that asserts `ready` only after its ninth evaluation (the first
poll of the add) and shows `vreg_out[j] = 16 * n + j` after `n` evaluations. -/
def countingDut : Dut Nat := oracle (fun n => n == 9) fun n j => 16 * n + j

/-- A model that completes every instruction at the first rising clock edge
outside reset, with `vreg_out[j] = 0x01010101 * j`. -/
def promptDut : Dut Inputs :=
  ⟨fun _ i => i, fun i => i.clk && !i.rst && !i.alu_rst, fun _ j => 0x01010101 * j⟩

/-! ## The shape of a run -/

/-- The value of `clk` at the evaluation with index `i`, counted from 0:
`clk` starts at 0 and is inverted before every evaluation. -/
def clkAt (i : Nat) : Bool := decide (i % 2 = 0)

/-- The history of `k` consecutive evaluations with indices `n`, `n + 1`, ...
made at one call site with unchanged `rst`, `alu_rst` and `instr`, all with
the same reading `rd` of `ready`. -/
def seg (site : Site) (rst alu : Bool) (w : Nat) (rd : Option Bool) (n k : Nat) :
    List Record :=
  (List.range k).map fun j => ⟨site, ⟨clkAt (n + j), rst, alu, w, 8⟩, rd⟩

/-- The history of a whole run in which the add loop read `ready` false `ka`
times and then true (`ra`) or not at all, and likewise the store loop
(`ks`, `rs`) and the load loop (`kl`, `rl`). -/
def runLog (ka : Nat) (ra : Bool) (ks : Nat) (rs : Bool) (kl : Nat) (rl : Bool) :
    List Record :=
  seg .reset true true 0 none 0 5
  ++ (seg .vsetvli false false instr_vsetvli none 5 2
  ++ (seg .pulse1 false true instr_vsetvli none 7 1
  ++ (seg .vaddPoll false false instr_vadd (some false) 8 ka
  ++ (seg .vaddPoll false false instr_vadd (some true) (8 + ka) ra.toNat
  ++ (seg .vaddSettle false false instr_vadd none (8 + ka + ra.toNat) (4 * ra.toNat)
  ++ (seg .pulse2 false true instr_vadd none (8 + ka + 5 * ra.toNat) 1
  ++ (seg .vsePoll false false instr_vse (some false) (9 + ka + 5 * ra.toNat) ks
  ++ (seg .vsePoll false false instr_vse (some true) (9 + ka + 5 * ra.toNat + ks) rs.toNat
  ++ (seg .pulse3 false true instr_vse none (9 + ka + 5 * ra.toNat + ks + rs.toNat) 1
  ++ (seg .vlePoll false false instr_vle (some false)
        (10 + ka + 5 * ra.toNat + ks + rs.toNat) kl
  ++ seg .vlePoll false false instr_vle (some true)
        (10 + ka + 5 * ra.toNat + ks + rs.toNat + kl) rl.toNat))))))))))

/-- The state of `std::cout` at the end of a run in which the add loop saw
`ready` (`ra`) with `vreg_out = v`, the store loop saw it (`rs`) and the load
loop saw it (`rl`). -/
def runOut (ra : Bool) (v : Nat → Nat) (rs rl : Bool) : OStream :=
  let c1 := if ra then printVreg v OStream.init else OStream.init
  let c2 := if rs then (c1.putStr "vse16.v complete").endl else c1
  if rl then (c2.putStr "vle8.v complete").endl else c2

/-- The readings of `ready` made at one call site, in order. -/
def pollReads (site : Site) (log : List Record) : List (Option Bool) :=
  (log.filter fun x => decide (x.site = site)).map fun x => x.ready

/-- The number of evaluations made at one call site. -/
def siteCount (site : Site) (log : List Record) : Nat :=
  (log.filter fun x => decide (x.site = site)).length

/-- The clock values of the history `l` are those of consecutive evaluations
starting with index `n`. -/
def ClkFrom (n : Nat) (l : List Record) : Prop :=
  l.map (fun x => x.pins.clk) = (List.range l.length).map fun j => clkAt (n + j)

/-- The state of the model after the evaluations of the history `log`, from
the initial state `dut0`: every evaluation applies `eval` to the pin values
it saw. -/
def dutAfter {σ : Type} (d : Dut σ) (dut0 : σ) (log : List Record) : σ :=
  log.foldl (fun s x => d.eval s x.pins) dut0

/-- The harness is between two evaluations with the given `rst`, `alu_rst`
and `instr` on the pins, history `L`, and `C` on `std::cout`; the model is in
the state the evaluations of `L` lead to. -/
def Reaches {σ : Type} (d : Dut σ) (dut0 : σ) (s : Sim σ) (rst alu : Bool) (w : Nat)
    (L : List Record) (C : OStream) : Prop :=
  s.top = ⟨!clkAt L.length, rst, alu, w, 8⟩ ∧ s.log = L ∧ s.cout = C ∧
    s.dut = dutAfter d dut0 L

/-! ## Lemmas on the building blocks -/

theorem clkAt_succ (i : Nat) : clkAt (i + 1) = !clkAt i := by
  unfold clkAt
  rcases Nat.mod_two_eq_zero_or_one i with h | h <;> simp [h, Nat.add_mod]

theorem seg_length (site : Site) (r a : Bool) (w : Nat) (rd : Option Bool) (n k : Nat) :
    (seg site r a w rd n k).length = k := by
  simp [seg]

theorem seg_zero (site : Site) (r a : Bool) (w : Nat) (rd : Option Bool) (n : Nat) :
    seg site r a w rd n 0 = [] := by
  simp [seg]

theorem seg_one (site : Site) (r a : Bool) (w : Nat) (rd : Option Bool) (n : Nat) :
    seg site r a w rd n 1 = [⟨site, ⟨clkAt n, r, a, w, 8⟩, rd⟩] := by
  rfl

theorem seg_succ (site : Site) (r a : Bool) (w : Nat) (rd : Option Bool) (n k : Nat) :
    seg site r a w rd n (k + 1)
      = ⟨site, ⟨clkAt n, r, a, w, 8⟩, rd⟩ :: seg site r a w rd (n + 1) k := by
  simp [seg, List.range_succ_eq_map, Function.comp_def, Nat.add_assoc, Nat.add_comm 1]

theorem seg_succ_last (site : Site) (r a : Bool) (w : Nat) (rd : Option Bool) (n k : Nat) :
    seg site r a w rd n (k + 1)
      = seg site r a w rd n k ++ [⟨site, ⟨clkAt (n + k), r, a, w, 8⟩, rd⟩] := by
  simp [seg, List.range_succ]

theorem mem_seg {site : Site} {r a : Bool} {w : Nat} {rd : Option Bool} {n k : Nat}
    {x : Record} :
    x ∈ seg site r a w rd n k ↔ ∃ j, j < k ∧ x = ⟨site, ⟨clkAt (n + j), r, a, w, 8⟩, rd⟩ := by
  simp [seg, eq_comm]

theorem forall_mem_seg {site : Site} {r a : Bool} {w : Nat} {rd : Option Bool} {n k : Nat}
    {P : Record → Prop} :
    (∀ x ∈ seg site r a w rd n k, P x)
      ↔ ∀ j, j < k → P ⟨site, ⟨clkAt (n + j), r, a, w, 8⟩, rd⟩ := by
  constructor
  · intro h j hj
    exact h _ (mem_seg.2 ⟨j, hj, rfl⟩)
  · intro h x hx
    obtain ⟨j, hj, rfl⟩ := mem_seg.1 hx
    exact h j hj

theorem reaches_tick {σ : Type} (d : Dut σ) {dut0 : σ} (site : Site) (poll : Bool)
    {s : Sim σ} {r a : Bool} {w : Nat} {L : List Record} {C : OStream}
    (h : Reaches d dut0 s r a w L C) :
    Reaches d dut0 (tick d site poll s) r a w
      (L ++ seg site r a w (if poll then some (d.ready (tick d site poll s).dut) else none)
        L.length 1) C := by
  obtain ⟨h1, h2, h3, h4⟩ := h
  refine ⟨?_, ?_, ?_, ?_⟩
  · simp [tick, h1, clkAt_succ, seg_length]
  · simp [tick, h1, h2, seg_one]
  · simp [tick, h3]
  · simp [tick, h1, h4, dutAfter, seg_one, List.foldl_append]

theorem reaches_repeat {σ : Type} (d : Dut σ) {dut0 : σ} (site : Site) {r a : Bool}
    {w : Nat} {C : OStream} (k : Nat) :
    ∀ {s : Sim σ} {L : List Record}, Reaches d dut0 s r a w L C →
      Reaches d dut0 (repeatN (tick d site false) k s) r a w
        (L ++ seg site r a w none L.length k) C := by
  induction k with
  | zero => intro s L h; simpa [repeatN, seg_zero] using h
  | succ k ih =>
    intro s L h
    have h1 := ih (reaches_tick d site false h)
    simpa [repeatN, seg_succ, seg_one, List.append_assoc] using h1

theorem pollLoop_spec {σ : Type} (d : Dut σ) {dut0 : σ} (site : Site)
    (onReady : Sim σ → Sim σ) {r a : Bool} {w : Nat} {C : OStream} (n : Nat) :
    ∀ {s : Sim σ} {L : List Record}, Reaches d dut0 s r a w L C →
      Reaches d dut0 (pollLoop d site onReady n s) r a w
          (L ++ seg site r a w (some false) L.length n) C
      ∨ ∃ k s1, k < n ∧ pollLoop d site onReady n s = onReady s1 ∧
          Reaches d dut0 s1 r a w
            (L ++ (seg site r a w (some false) L.length k
              ++ seg site r a w (some true) (L.length + k) 1)) C := by
  induction n with
  | zero => intro s L h; left; simpa [pollLoop, seg_zero] using h
  | succ n ih =>
    intro s L h
    have h1 := reaches_tick d site true h
    by_cases hr : d.ready (tick d site true s).dut = true
    · right
      refine ⟨0, tick d site true s, Nat.succ_pos n, by simp [pollLoop, hr], ?_⟩
      simpa [hr, seg_zero] using h1
    · have hf : d.ready (tick d site true s).dut = false := by simpa using hr
      have hp : pollLoop d site onReady (n + 1) s
          = pollLoop d site onReady n (tick d site true s) := by
        simp [pollLoop, hf]
      rw [hf] at h1
      rcases ih h1 with h2 | ⟨k, s1, hk, he, h2⟩
      · left
        rw [hp]
        simpa [seg_succ, seg_one, seg_length, List.append_assoc] using h2
      · right
        refine ⟨k + 1, s1, Nat.succ_lt_succ hk, by rw [hp, he], ?_⟩
        simpa [seg_succ, seg_one, seg_length, List.append_assoc, Nat.add_assoc,
          Nat.add_comm 1 k] using h2

/-- A polling loop whose `onReady` body, entered with history `L1`, makes `m`
further evaluations at `site2` and leaves `std::cout` in a state satisfying
`P L1`. -/
theorem poll_phase {σ : Type} (d : Dut σ) {dut0 : σ} (site site2 : Site)
    (onReady : Sim σ → Sim σ) {r a : Bool} {w : Nat} {C : OStream}
    (P : List Record → OStream → Prop) (m n : Nat)
    (hOn : ∀ (s1 : Sim σ) (L1 : List Record), Reaches d dut0 s1 r a w L1 C →
      ∃ C1, P L1 C1 ∧
        Reaches d dut0 (onReady s1) r a w (L1 ++ seg site2 r a w none L1.length m) C1)
    {s : Sim σ} {L : List Record} (h : Reaches d dut0 s r a w L C) :
    ∃ (k : Nat) (rdy : Bool) (C1 : OStream),
      k + rdy.toNat ≤ n ∧ (rdy = false → k = n) ∧
      (if rdy then
          P (L ++ (seg site r a w (some false) L.length k
            ++ seg site r a w (some true) (L.length + k) 1)) C1
        else C1 = C) ∧
      Reaches d dut0 (pollLoop d site onReady n s) r a w
        (L ++ (seg site r a w (some false) L.length k
          ++ (seg site r a w (some true) (L.length + k) rdy.toNat
          ++ seg site2 r a w none (L.length + k + rdy.toNat) (m * rdy.toNat)))) C1 := by
  rcases pollLoop_spec d site onReady n h with h1 | ⟨k, s1, hk, he, h1⟩
  · refine ⟨n, false, C, by simp, by simp, by simp, ?_⟩
    simpa [seg_zero] using h1
  · obtain ⟨C1, hP, h2⟩ := hOn s1 _ h1
    refine ⟨k, true, C1, by simpa using hk, by simp, by simpa using hP, ?_⟩
    rw [he]
    simpa [seg_length, List.append_assoc, Nat.add_assoc] using h2

theorem reaches_setRst {σ : Type} {d : Dut σ} {dut0 : σ} {s : Sim σ} {r a : Bool} {w : Nat}
    {L : List Record} {C : OStream} (b : Bool) (h : Reaches d dut0 s r a w L C) :
    Reaches d dut0 (setRst b s) b a w L C := by
  obtain ⟨h1, h2, h3, h4⟩ := h
  exact ⟨by simp [setRst, h1], h2, h3, h4⟩

theorem reaches_setAluRst {σ : Type} {d : Dut σ} {dut0 : σ} {s : Sim σ} {r a : Bool}
    {w : Nat} {L : List Record} {C : OStream} (b : Bool) (h : Reaches d dut0 s r a w L C) :
    Reaches d dut0 (setAluRst b s) r b w L C := by
  obtain ⟨h1, h2, h3, h4⟩ := h
  exact ⟨by simp [setAluRst, h1], h2, h3, h4⟩

theorem reaches_setInstr {σ : Type} {d : Dut σ} {dut0 : σ} {s : Sim σ} {r a : Bool}
    {w : Nat} {L : List Record} {C : OStream} (x : Nat) (h : Reaches d dut0 s r a w L C) :
    Reaches d dut0 (setInstr x s) r a x L C := by
  obtain ⟨h1, h2, h3, h4⟩ := h
  exact ⟨by simp [setInstr, h1], h2, h3, h4⟩

/-- The body run when the add is seen ready prints `vreg_out` as the model
shows it in the state the history so far leads to. -/
theorem vaddReady_spec {σ : Type} (d : Dut σ) {dut0 : σ} {r a : Bool} {w : Nat}
    {C : OStream} (s1 : Sim σ) (L1 : List Record) (h : Reaches d dut0 s1 r a w L1 C) :
    ∃ C1, C1 = printVreg (d.vreg_out (dutAfter d dut0 L1)) C ∧
      Reaches d dut0 (vaddReady d s1) r a w
        (L1 ++ seg .vaddSettle r a w none L1.length 4) C1 := by
  refine ⟨_, rfl, ?_⟩
  have h0 : Reaches d dut0 { s1 with cout := printVreg (d.vreg_out s1.dut) s1.cout } r a w L1
      (printVreg (d.vreg_out (dutAfter d dut0 L1)) C) := by
    obtain ⟨h1, h2, h3, h4⟩ := h
    exact ⟨h1, h2, by simp [h3, h4], h4⟩
  exact reaches_repeat d .vaddSettle 4 h0

theorem vseReady_spec {σ : Type} {d : Dut σ} {dut0 : σ} {r a : Bool} {w : Nat}
    {C : OStream} (s1 : Sim σ) (L1 : List Record) (h : Reaches d dut0 s1 r a w L1 C) :
    ∃ C1, C1 = (C.putStr "vse16.v complete").endl ∧
      Reaches d dut0 (vseReady s1) r a w (L1 ++ seg .vsePoll r a w none L1.length 0) C1 := by
  obtain ⟨h1, h2, h3, h4⟩ := h
  exact ⟨_, rfl, h1.trans (by simp [seg_zero]), by simp [vseReady, h2, seg_zero],
    by simp [vseReady, h3], by simpa [vseReady, seg_zero] using h4⟩

theorem vleReady_spec {σ : Type} {d : Dut σ} {dut0 : σ} {r a : Bool} {w : Nat}
    {C : OStream} (s1 : Sim σ) (L1 : List Record) (h : Reaches d dut0 s1 r a w L1 C) :
    ∃ C1, C1 = (C.putStr "vle8.v complete").endl ∧
      Reaches d dut0 (vleReady s1) r a w (L1 ++ seg .vlePoll r a w none L1.length 0) C1 := by
  obtain ⟨h1, h2, h3, h4⟩ := h
  exact ⟨_, rfl, h1.trans (by simp [seg_zero]), by simp [vleReady, h2, seg_zero],
    by simp [vleReady, h3], by simpa [vleReady, seg_zero] using h4⟩

theorem reaches_pulse {σ : Type} (d : Dut σ) {dut0 : σ} (site : Site) {s : Sim σ}
    {r a : Bool} {w : Nat} {L : List Record} {C : OStream}
    (h : Reaches d dut0 s r a w L C) (N : Nat) (hN : L.length = N) :
    Reaches d dut0 (setAluRst false (tick d site false (setAluRst true s))) r false w
      (L ++ seg site r true w none N 1) C := by
  subst hN
  simpa using reaches_setAluRst false (reaches_tick d site false (reaches_setAluRst true h))

/-- The history of a run up to and including the evaluation at which the add
loop read `ready` as true, after `ka` readings of false. -/
theorem take_runLog_vaddReady (ka ks : Nat) (rs : Bool) (kl : Nat) (rl : Bool) :
    (runLog ka true ks rs kl rl).take (9 + ka)
      = seg .reset true true 0 none 0 5
        ++ (seg .vsetvli false false instr_vsetvli none 5 2
        ++ (seg .pulse1 false true instr_vsetvli none 7 1
        ++ (seg .vaddPoll false false instr_vadd (some false) 8 ka
        ++ seg .vaddPoll false false instr_vadd (some true) (8 + ka) 1))) := by
  have hsplit : runLog ka true ks rs kl rl
      = (seg .reset true true 0 none 0 5
        ++ (seg .vsetvli false false instr_vsetvli none 5 2
        ++ (seg .pulse1 false true instr_vsetvli none 7 1
        ++ (seg .vaddPoll false false instr_vadd (some false) 8 ka
        ++ seg .vaddPoll false false instr_vadd (some true) (8 + ka) 1))))
        ++ (seg .vaddSettle false false instr_vadd none (8 + ka + 1) (4 * 1)
        ++ (seg .pulse2 false true instr_vadd none (8 + ka + 5 * 1) 1
        ++ (seg .vsePoll false false instr_vse (some false) (9 + ka + 5 * 1) ks
        ++ (seg .vsePoll false false instr_vse (some true) (9 + ka + 5 * 1 + ks) rs.toNat
        ++ (seg .pulse3 false true instr_vse none (9 + ka + 5 * 1 + ks + rs.toNat) 1
        ++ (seg .vlePoll false false instr_vle (some false)
              (10 + ka + 5 * 1 + ks + rs.toNat) kl
        ++ seg .vlePoll false false instr_vle (some true)
              (10 + ka + 5 * 1 + ks + rs.toNat + kl) rl.toNat)))))) := by
    simp only [runLog, Bool.toNat_true, List.append_assoc]
  rw [hsplit]
  exact List.take_left' (by simp only [List.length_append, seg_length]; omega)

/-- Every run of the harness has the shape `runLog`, `runOut`: the model
decides only how long each polling loop lasts, and the register printed is
`vreg_out` of the model in the state reached by the evaluation at which the
add loop read `ready` as true. -/
theorem main_run {σ : Type} (d : Dut σ) (tfp : Bool) (dut0 : σ) :
    ∃ (ka : Nat) (ra : Bool) (ks : Nat) (rs : Bool) (kl : Nat) (rl : Bool),
      ka + ra.toNat ≤ 100 ∧ (ra = false → ka = 100) ∧
      ks + rs.toNat ≤ 100 ∧ (rs = false → ks = 100) ∧
      kl + rl.toNat ≤ 100 ∧ (rl = false → kl = 100) ∧
      (main d tfp dut0).log = runLog ka ra ks rs kl rl ∧
      (main d tfp dut0).cout
        = runOut ra (d.vreg_out (dutAfter d dut0 ((main d tfp dut0).log.take (9 + ka))))
            rs rl := by
  have h0 : Reaches d dut0
      { top := initTop, dut := dut0, tfp := tfp, main_time := 0,
        cout := OStream.init, log := [] } true true 0 [] OStream.init :=
    ⟨rfl, rfl, rfl, rfl⟩
  have h1 := reaches_setInstr instr_vsetvli
    (reaches_setAluRst false (reaches_setRst false (reaches_repeat d .reset 5 h0)))
  have h2 := reaches_repeat d .vsetvli 2 h1
  have h3 := reaches_setInstr instr_vadd (reaches_pulse d .pulse1 h2 7 rfl)
  obtain ⟨ka, ra, C1, hka, hra, hC1, h4⟩ :=
    poll_phase d .vaddPoll .vaddSettle (vaddReady d)
      (fun L1 C1 => C1 = printVreg (d.vreg_out (dutAfter d dut0 L1)) OStream.init)
      4 100 (vaddReady_spec d) h3
  have h5 := reaches_setInstr instr_vse
    (reaches_pulse d .pulse2 h4 (8 + ka + 5 * ra.toNat)
      (by simp only [List.length_append, seg_length, List.length_nil]; omega))
  obtain ⟨ks, rs, C2, hks, hrs, hC2, h6⟩ :=
    poll_phase d .vsePoll .vsePoll vseReady
      (fun _ C2 => C2 = (C1.putStr "vse16.v complete").endl) 0 100 vseReady_spec h5
  have h7 := reaches_setInstr instr_vle
    (reaches_pulse d .pulse3 h6 (9 + ka + 5 * ra.toNat + ks + rs.toNat)
      (by simp only [List.length_append, seg_length, List.length_nil]; omega))
  obtain ⟨kl, rl, C3, hkl, hrl, hC3, h8⟩ :=
    poll_phase d .vlePoll .vlePoll vleReady
      (fun _ C3 => C3 = (C2.putStr "vle8.v complete").endl) 0 100 vleReady_spec h7
  obtain ⟨-, hlog, hcout, -⟩ := h8
  have a1 : 5 + (2 + 1) = 8 := rfl
  have hlog2 : (main d tfp dut0).log = runLog ka ra ks rs kl rl := by
    refine Eq.trans hlog ?_
    have a2 : 5 + (2 + (1 + (ka + (ra.toNat + (4 * ra.toNat + 1)))))
        = 9 + ka + 5 * ra.toNat := by omega
    have a3 : 5 + (2 + (1 + (ka + (ra.toNat + (4 * ra.toNat + (1 + (ks + (rs.toNat + 1))))))))
        = 10 + ka + 5 * ra.toNat + ks + rs.toNat := by omega
    simp only [runLog, seg_length, List.append_assoc, seg_zero, List.nil_append,
      List.append_nil, List.length_append, List.length_nil, Nat.zero_mul, Nat.zero_add,
      a1, a2, a3]
  have hcout2 : (main d tfp dut0).cout
      = runOut ra (d.vreg_out (dutAfter d dut0 ((main d tfp dut0).log.take (9 + ka))))
          rs rl := by
    have hv : C1 = if ra then
        printVreg (d.vreg_out (dutAfter d dut0 ((main d tfp dut0).log.take (9 + ka))))
          OStream.init
        else OStream.init := by
      cases ra with
      | false => simpa using hC1
      | true =>
        rw [hlog2, take_runLog_vaddReady]
        simp only [if_true] at hC1 ⊢
        rw [hC1]
        simp only [seg_length, List.append_assoc, List.nil_append, List.length_append,
          List.length_nil, Nat.zero_add, a1]
    refine Eq.trans hcout ?_
    have h2 : C2 = if rs then (C1.putStr "vse16.v complete").endl else C1 := by
      cases rs <;> simpa using hC2
    have h3 : C3 = if rl then (C2.putStr "vle8.v complete").endl else C2 := by
      cases rl <;> simpa using hC3
    rw [h3, h2, hv]
    rfl
  exact ⟨ka, ra, ks, rs, kl, rl, hka, hra, hks, hrs, hkl, hrl, hlog2, hcout2⟩

/-- The shape of a run without the state of the model. -/
theorem main_shape {σ : Type} (d : Dut σ) (tfp : Bool) (dut0 : σ) :
    ∃ (ka : Nat) (ra : Bool) (ks : Nat) (rs : Bool) (kl : Nat) (rl : Bool) (v : Nat → Nat),
      ka + ra.toNat ≤ 100 ∧ (ra = false → ka = 100) ∧
      ks + rs.toNat ≤ 100 ∧ (rs = false → ks = 100) ∧
      kl + rl.toNat ≤ 100 ∧ (rl = false → kl = 100) ∧
      (main d tfp dut0).log = runLog ka ra ks rs kl rl ∧
      (main d tfp dut0).cout = runOut ra v rs rl := by
  obtain ⟨ka, ra, ks, rs, kl, rl, h⟩ := main_run d tfp dut0
  exact ⟨ka, ra, ks, rs, kl, rl, _, h⟩

/-! ## Facts about every run -/

theorem map_instr_seg (site : Site) (r a : Bool) (w : Nat) (rd : Option Bool) (n k : Nat) :
    (seg site r a w rd n k).map (fun x => x.pins.instr) = List.replicate k w := by
  induction k generalizing n with
  | zero => simp [seg_zero]
  | succ k ih => simp [seg_succ, ih, List.replicate_succ]

theorem map_instr_runLog (ka : Nat) (ra : Bool) (ks : Nat) (rs : Bool) (kl : Nat) (rl : Bool) :
    (runLog ka ra ks rs kl rl).map (fun x => x.pins.instr)
      = List.replicate 5 0 ++ (List.replicate 3 instr_vsetvli
        ++ (List.replicate (ka + 5 * ra.toNat + 1) instr_vadd
        ++ (List.replicate (ks + rs.toNat + 1) instr_vse
        ++ List.replicate (kl + rl.toNat) instr_vle))) := by
  have e1 : ka + 5 * ra.toNat + 1 = ka + (ra.toNat + (4 * ra.toNat + 1)) := by omega
  have e2 : ks + rs.toNat + 1 = ks + (rs.toNat + 1) := by omega
  simp only [runLog, List.map_append, map_instr_seg, e1, e2]
  simp only [← List.append_replicate_replicate, List.append_assoc]
  rfl

theorem mem_runLog_vl {ka : Nat} {ra : Bool} {ks : Nat} {rs : Bool} {kl : Nat} {rl : Bool}
    {x : Record} (hx : x ∈ runLog ka ra ks rs kl rl) : x.pins.vl = 8 := by
  simp only [runLog, List.mem_append, mem_seg] at hx
  rcases hx with h | h | h | h | h | h | h | h | h | h | h | h <;>
    (obtain ⟨j, -, rfl⟩ := h; rfl)

theorem filter_site_seg (t site : Site) (r a : Bool) (w : Nat) (rd : Option Bool)
    (n k : Nat) :
    (seg site r a w rd n k).filter (fun x => decide (x.site = t))
      = if site = t then seg site r a w rd n k else [] := by
  by_cases h : site = t
  · rw [if_pos h, List.filter_eq_self]
    intro x hx
    obtain ⟨j, -, rfl⟩ := mem_seg.1 hx
    simpa using h
  · rw [if_neg h, List.filter_eq_nil_iff]
    intro x hx
    obtain ⟨j, -, rfl⟩ := mem_seg.1 hx
    simpa using h

theorem filter_instr_seg (t : Nat) (site : Site) (r a : Bool) (w : Nat) (rd : Option Bool)
    (n k : Nat) :
    (seg site r a w rd n k).filter (fun x => decide (x.pins.instr = t))
      = if w = t then seg site r a w rd n k else [] := by
  by_cases h : w = t
  · rw [if_pos h, List.filter_eq_self]
    intro x hx
    obtain ⟨j, -, rfl⟩ := mem_seg.1 hx
    simpa using h
  · rw [if_neg h, List.filter_eq_nil_iff]
    intro x hx
    obtain ⟨j, -, rfl⟩ := mem_seg.1 hx
    simpa using h

theorem map_ready_seg (site : Site) (r a : Bool) (w : Nat) (rd : Option Bool) (n k : Nat) :
    (seg site r a w rd n k).map (fun x => x.ready) = List.replicate k rd := by
  induction k generalizing n with
  | zero => simp [seg_zero]
  | succ k ih => simp [seg_succ, ih, List.replicate_succ]

theorem length_runLog (ka : Nat) (ra : Bool) (ks : Nat) (rs : Bool) (kl : Nat) (rl : Bool) :
    (runLog ka ra ks rs kl rl).length
      = 10 + ka + 5 * ra.toNat + ks + rs.toNat + kl + rl.toNat := by
  simp only [runLog, List.length_append, seg_length]
  omega

theorem toNat_le_one (b : Bool) : b.toNat ≤ 1 := by
  cases b <;> simp

/-- A loop that read `ready` as true left a record of it in the history. -/
theorem true_read_mem {ka : Nat} {ra : Bool} {ks : Nat} {rs : Bool} {kl : Nat} {rl : Bool}
    (site : Site) (w n : Nat) (b : Bool) (hb : b = true)
    (hsub : ∀ x, x ∈ seg site false false w (some true) n b.toNat →
      x ∈ runLog ka ra ks rs kl rl) :
    (⟨site, ⟨clkAt n, false, false, w, 8⟩, some true⟩ : Record) ∈ runLog ka ra ks rs kl rl := by
  apply hsub
  subst hb
  simp [seg_one]

theorem vaddTrue_sub {ka : Nat} {ra : Bool} {ks : Nat} {rs : Bool} {kl : Nat} {rl : Bool} :
    ∀ x, x ∈ seg .vaddPoll false false instr_vadd (some true) (8 + ka) ra.toNat →
      x ∈ runLog ka ra ks rs kl rl := by
  intro x hx
  simp only [runLog, List.mem_append]
  tauto

theorem vseTrue_sub {ka : Nat} {ra : Bool} {ks : Nat} {rs : Bool} {kl : Nat} {rl : Bool} :
    ∀ x, x ∈ seg .vsePoll false false instr_vse (some true) (9 + ka + 5 * ra.toNat + ks)
        rs.toNat → x ∈ runLog ka ra ks rs kl rl := by
  intro x hx
  simp only [runLog, List.mem_append]
  tauto

theorem vleTrue_sub {ka : Nat} {ra : Bool} {ks : Nat} {rs : Bool} {kl : Nat} {rl : Bool} :
    ∀ x, x ∈ seg .vlePoll false false instr_vle (some true)
        (10 + ka + 5 * ra.toNat + ks + rs.toNat + kl) rl.toNat →
      x ∈ runLog ka ra ks rs kl rl := by
  intro x hx
  simp only [runLog, List.mem_append]
  tauto

theorem clkFrom_seg (site : Site) (r a : Bool) (w : Nat) (rd : Option Bool) (n k : Nat) :
    ClkFrom n (seg site r a w rd n k) := by
  simp [ClkFrom, seg]

theorem clkFrom_append {n : Nat} {l1 l2 : List Record} (m : Nat) (hm : n + l1.length = m)
    (h1 : ClkFrom n l1) (h2 : ClkFrom m l2) : ClkFrom n (l1 ++ l2) := by
  subst hm
  unfold ClkFrom at *
  rw [List.map_append, h1, h2, List.length_append, List.range_add, List.map_append,
    List.map_map]
  simp [Function.comp_def, Nat.add_assoc]

theorem clkFrom_seg_append (site : Site) (r a : Bool) (w : Nat) (rd : Option Bool)
    {n k : Nat} {l : List Record} (m : Nat) (hm : n + k = m) (h : ClkFrom m l) :
    ClkFrom n (seg site r a w rd n k ++ l) :=
  clkFrom_append m (by rw [seg_length]; exact hm) (clkFrom_seg site r a w rd n k) h

theorem clkFrom_runLog (ka : Nat) (ra : Bool) (ks : Nat) (rs : Bool) (kl : Nat) (rl : Bool) :
    ClkFrom 0 (runLog ka ra ks rs kl rl) := by
  unfold runLog
  refine clkFrom_seg_append _ _ _ _ _ _ ?_ <| clkFrom_seg_append _ _ _ _ _ _ ?_ <|
    clkFrom_seg_append _ _ _ _ _ _ ?_ <| clkFrom_seg_append _ _ _ _ _ _ ?_ <|
    clkFrom_seg_append _ _ _ _ _ _ ?_ <| clkFrom_seg_append _ _ _ _ _ _ ?_ <|
    clkFrom_seg_append _ _ _ _ _ _ ?_ <| clkFrom_seg_append _ _ _ _ _ _ ?_ <|
    clkFrom_seg_append _ _ _ _ _ _ ?_ <| clkFrom_seg_append _ _ _ _ _ _ ?_ <|
    clkFrom_seg_append _ _ _ _ _ _ ?_ <| clkFrom_seg _ _ _ _ _ _ _
  all_goals omega

theorem take8_runLog (ka : Nat) (ra : Bool) (ks : Nat) (rs : Bool) (kl : Nat) (rl : Bool) :
    (runLog ka ra ks rs kl rl).take 8
      = seg .reset true true 0 none 0 5 ++ (seg .vsetvli false false instr_vsetvli none 5 2
        ++ seg .pulse1 false true instr_vsetvli none 7 1) := by
  unfold runLog
  rw [← List.append_assoc, ← List.append_assoc, List.append_assoc (seg .reset _ _ _ _ _ _)]
  exact List.take_left' (by simp [seg_length])

theorem mem_pollReads {site : Site} {log : List Record} {x : Record} (hx : x ∈ log)
    (hs : x.site = site) : x.ready ∈ pollReads site log := by
  unfold pollReads
  exact List.mem_map.2 ⟨x, List.mem_filter.2 ⟨hx, by simpa using hs⟩, rfl⟩

/-! ## Lemmas on the printed text -/

theorem fixedHex_length (e n : Nat) : (fixedHex e n).length = e := by
  induction e generalizing n with
  | zero => rfl
  | succ e ih => simp [fixedHex, ih]

theorem fixedHex_zero (e : Nat) : fixedHex e 0 = List.replicate e '0' := by
  induction e with
  | zero => rfl
  | succ e ih =>
    simp only [fixedHex, Nat.zero_div, ih, Nat.zero_mod]
    rw [List.replicate_succ']
    rfl

/-- With enough fuel, the digits `Nat.toDigitsCore` produces are the fixed-width
digits with the leading zeros removed. -/
theorem toDigitsCore_fixed (e : Nat) :
    ∀ (fuel n : Nat) (ds : List Char), n < 16 ^ (e + 1) → n < fuel →
      ∃ z, List.replicate z '0' ++ Nat.toDigitsCore 16 fuel n ds
        = fixedHex (e + 1) n ++ ds := by
  induction e with
  | zero =>
    intro fuel n ds hn hf
    obtain ⟨f, rfl⟩ : ∃ f, fuel = f + 1 := ⟨fuel - 1, by omega⟩
    have h0 : n / 16 = 0 := by omega
    exact ⟨0, by simp [Nat.toDigitsCore, h0, fixedHex]⟩
  | succ e ih =>
    intro fuel n ds hn hf
    obtain ⟨f, rfl⟩ : ∃ f, fuel = f + 1 := ⟨fuel - 1, by omega⟩
    by_cases h0 : n / 16 = 0
    · refine ⟨e + 1, ?_⟩
      have hfix : fixedHex (e + 1 + 1) n
          = fixedHex (e + 1) 0 ++ [Nat.digitChar (n % 16)] := by
        rw [fixedHex, h0]
      rw [hfix, fixedHex_zero]
      simp [Nat.toDigitsCore, h0]
    · have hlt : n / 16 < 16 ^ (e + 1) := by
        rw [Nat.div_lt_iff_lt_mul (by norm_num)]
        calc n < 16 ^ (e + 1 + 1) := hn
          _ = 16 ^ (e + 1) * 16 := by rw [pow_succ]
      have hf2 : n / 16 < f := by omega
      obtain ⟨z, hz⟩ := ih f (n / 16) (Nat.digitChar (n % 16) :: ds) hlt hf2
      refine ⟨z, ?_⟩
      have hfix : fixedHex (e + 1 + 1) n
          = fixedHex (e + 1) (n / 16) ++ [Nat.digitChar (n % 16)] := by
        rw [fixedHex]
      rw [hfix]
      simp only [Nat.toDigitsCore, h0, if_false]
      rw [hz]
      simp

theorem digitChar_eq_hexDigit (k : Nat) (hk : k < 16) : Nat.digitChar k = hexDigit k := by
  interval_cases k <;> rfl

theorem hexDigit_mem (k : Nat) (hk : k < 16) : hexDigit k ∈ hexDigits := by
  interval_cases k <;> decide

theorem fixedHex_eight (n : Nat) : fixedHex 8 n = hexWord n := by
  simp only [fixedHex, hexWord, List.nil_append, List.cons_append, Nat.div_div_eq_div_mul]
  simp [digitChar_eq_hexDigit, Nat.mod_lt]

/-- What `<< std::hex << std::setfill(0) << std::setw(8) << x` appends. -/
theorem hex8_eq (x : Nat) :
    padLeft 8 '0' (Nat.toDigits 16 (x % 2 ^ 32)) = hexWord (x % 2 ^ 32) := by
  have hx : x % 2 ^ 32 < 16 ^ (7 + 1) := by
    have h216 : (2 : Nat) ^ 32 = 16 ^ (7 + 1) := by norm_num
    rw [← h216]; exact Nat.mod_lt _ (by norm_num)
  obtain ⟨z, hz⟩ :=
    toDigitsCore_fixed 7 (x % 2 ^ 32 + 1) (x % 2 ^ 32) [] hx (Nat.lt_succ_self _)
  rw [List.append_nil] at hz
  have hl := congrArg List.length hz
  rw [List.length_append, List.length_replicate, fixedHex_length] at hl
  have hz2 : z = 8 - (Nat.toDigits 16 (x % 2 ^ 32)).length := by
    unfold Nat.toDigits; omega
  rw [← fixedHex_eight, ← hz, hz2]
  rfl

theorem printWords_spec (v : Nat → Nat) (n : Nat) :
    ∀ os : OStream, os.width = 0 →
      (printWords v n os).text
          = os.text ++ ((List.range n).reverse.map
              fun j => hexWord (v j % 2 ^ 32) ++ [' ']).flatten ∧
        (printWords v n os).width = 0 := by
  induction n with
  | zero => intro os h; simp [printWords, h]
  | succ n ih =>
    intro os _
    obtain ⟨h1, h2⟩ :=
      ih ((((os.setHex.setfill '0').setw 8).putU32 (v n)).putStr " ") rfl
    refine ⟨?_, h2⟩
    rw [printWords, h1, List.range_succ, List.reverse_append]
    simp only [OStream.putStr, OStream.putU32, OStream.setw, OStream.setfill,
      OStream.setHex, if_true, hex8_eq]
    simp [padLeft]

theorem printVreg_spec (v : Nat → Nat) (os : OStream) (h : os.width = 0) :
    (printVreg v os).text = os.text ++ vregLine v ∧ (printVreg v os).width = 0 := by
  obtain ⟨h1, h2⟩ := printWords_spec v 16 (os.putStr "vreg_out = 0x") rfl
  refine ⟨?_, ?_⟩
  · simp only [printVreg, OStream.endl, OStream.setDec, h1]
    simp only [OStream.putStr, h, padLeft, vregLine, List.append_assoc]
    rfl
  · simpa [printVreg, OStream.endl, OStream.setDec] using h2

theorem runOut_text (ra : Bool) (v : Nat → Nat) (rs rl : Bool) :
    (runOut ra v rs rl).text
      = (if ra then vregLine v else [])
        ++ ((if rs then "vse16.v complete\n".toList else [])
        ++ (if rl then "vle8.v complete\n".toList else [])) := by
  obtain ⟨h1, h2⟩ := printVreg_spec v OStream.init rfl
  have i0 : OStream.init.width = 0 := rfl
  have i1 : OStream.init.text = [] := rfl
  have e1 : "vse16.v complete".toList ++ ['\n'] = "vse16.v complete\n".toList := rfl
  have e2 : "vle8.v complete".toList ++ ['\n'] = "vle8.v complete\n".toList := rfl
  cases ra <;> cases rs <;> cases rl <;>
    simp [runOut, OStream.putStr, OStream.endl, padLeft, h1, h2, i0, i1, ← e1, ← e2]

/-! ## The instruction words (C1 to C5) -/

/-- C1: in every run the instruction pin carries 0 during the five reset
evaluations and then, in this order and each for at least one evaluation, the
words of lines 40, 55, 87 and 111 and nothing else; the four words are
non-zero and belong to the classes configure (opcode 1010111, funct3 111,
bit 31 clear), vector-immediate add (opcode 1010111, funct3 011, funct6
000000), vector store (opcode 0100111) and vector load (opcode 0000111). -/
theorem four_instruction_words {σ : Type} (d : Dut σ) (tfp : Bool) (dut0 : σ) :
    (∃ n2 n3 n4 : Nat, 0 < n2 ∧ 0 < n3 ∧ 0 < n4 ∧
      (main d tfp dut0).log.map (fun x => x.pins.instr)
        = List.replicate 5 0 ++ (List.replicate 3 instr_vsetvli
          ++ (List.replicate n2 instr_vadd
          ++ (List.replicate n3 instr_vse ++ List.replicate n4 instr_vle)))) ∧
    (instr_vsetvli ≠ 0 ∧ instr_vadd ≠ 0 ∧ instr_vse ≠ 0 ∧ instr_vle ≠ 0) ∧
    (bits instr_vsetvli 6 0 = 0b1010111 ∧ bits instr_vsetvli 14 12 = 0b111 ∧
      bits instr_vsetvli 31 31 = 0) ∧
    (bits instr_vadd 6 0 = 0b1010111 ∧ bits instr_vadd 14 12 = 0b011 ∧
      bits instr_vadd 31 26 = 0b000000) ∧
    bits instr_vse 6 0 = 0b0100111 ∧
    bits instr_vle 6 0 = 0b0000111 := by
  obtain ⟨ka, ra, ks, rs, kl, rl, v, -, -, -, -, hkl, hrl, hlog, -⟩ := main_shape d tfp dut0
  refine ⟨⟨ka + 5 * ra.toNat + 1, ks + rs.toNat + 1, kl + rl.toNat, by omega, by omega, ?_, ?_⟩,
    by decide, by decide, by decide, by decide, by decide⟩
  · cases rl with
    | false => simp [hrl rfl]
    | true => simp
  · rw [hlog, map_instr_runLog]

/-- C2 (what the code does): the word of line 55 decodes, under the layout
funct6[31:26] vm[25] vs2[24:20] simm5[19:15] funct3[14:12] vd[11:7]
opcode[6:0], to funct6 = 0, vm = 1, vs2 = 1, simm5 = 2 (value +2),
funct3 = 011, vd = 2, opcode = 1010111: the source register is v1, not the
v2 of the comment. -/
theorem vadd_word_fields :
    bits instr_vadd 31 26 = 0 ∧ bits instr_vadd 25 25 = 1 ∧ bits instr_vadd 24 20 = 1 ∧
    bits instr_vadd 19 15 = 2 ∧ sext5 (bits instr_vadd 19 15) = 2 ∧
    bits instr_vadd 14 12 = 0b011 ∧ bits instr_vadd 11 7 = 2 ∧
    bits instr_vadd 6 0 = 0b1010111 := by
  decide

/-- C3 (what the code does): the word of line 87 decodes, under the layout
nf[31:29] mew[28] mop[27:26] vm[25] sumop[24:20] rs1[19:15] width[14:12]
vs3[11:7] opcode[6:0], to nf = 010 (a three-field segment store, not the
plain `vse16.v` of the comment), mew = 0, mop = 00, vm = 1, sumop = 0,
rs1 = 4, width = 101, vs3 = 2, opcode = 0100111. -/
theorem vse_word_fields :
    bits instr_vse 31 29 = 0b010 ∧ bits instr_vse 28 28 = 0 ∧ bits instr_vse 27 26 = 0 ∧
    bits instr_vse 25 25 = 1 ∧ bits instr_vse 24 20 = 0 ∧ bits instr_vse 19 15 = 4 ∧
    bits instr_vse 14 12 = 0b101 ∧ bits instr_vse 11 7 = 2 ∧
    bits instr_vse 6 0 = 0b0100111 := by
  decide

/-- C4 as stated fails: the store word and the load word do not name the same
element width, and the width of the load word is not the 16-bit encoding. -/
theorem store_load_width_differ :
    ¬ (bits instr_vse 19 15 = bits instr_vle 19 15 ∧
        bits instr_vse 14 12 = bits instr_vle 14 12 ∧
        bits instr_vse 14 12 = 0b101 ∧ bits instr_vle 14 12 = 0b101) := by
  decide

/-- C4 (amended): the store word and the load word name the same base-address
register, rs1 = 4; the store word has the 16-bit width encoding 101 and the
load word the 8-bit width encoding 000. -/
theorem store_load_pair :
    bits instr_vse 19 15 = bits instr_vle 19 15 ∧ bits instr_vle 19 15 = 4 ∧
    bits instr_vse 14 12 = 0b101 ∧ bits instr_vle 14 12 = 0b000 := by
  decide

/-- C5: the vtype immediate of the configure word (bits 30 to 20) has vsew
(its bits 5 to 3) = 010, which selects an element width of 32 bits; the `vl`
pin is 8 at every evaluation of every run; and 8 = min(8, 512 / 32), so a
length of 8 at width 32 is within the capacity of the 512-bit register. -/
theorem vsetvli_requests_w32_l8 {σ : Type} (d : Dut σ) (tfp : Bool) (dut0 : σ) :
    bits (bits instr_vsetvli 30 20) 5 3 = 0b010 ∧
    sewBits (bits (bits instr_vsetvli 30 20) 5 3) = 32 ∧
    (main d tfp dut0).log.map (fun x => x.pins.vl)
      = List.replicate (main d tfp dut0).log.length 8 ∧
    vregBits = 512 ∧
    min 8 (vregBits / sewBits (bits (bits instr_vsetvli 30 20) 5 3)) = 8 := by
  obtain ⟨ka, ra, ks, rs, kl, rl, v, -, -, -, -, -, -, hlog, -⟩ := main_shape d tfp dut0
  refine ⟨by decide, by decide, ?_, by decide, by decide⟩
  rw [hlog, List.eq_replicate_iff]
  refine ⟨by simp, ?_⟩
  intro b hb
  obtain ⟨x, hx, rfl⟩ := List.mem_map.1 hb
  exact mem_runLog_vl hx

/-! ## Resets and polling (C8, C9) -/

/-- C8: every run consists of five reset evaluations with rst = 1,
alu_rst = 1 and instr = 0, followed, with rst = 0 throughout, by the two
evaluations of the configure window, one evaluation `p1` with alu_rst = 1,
the non-empty window of the add, one evaluation `p2` with alu_rst = 1, the
non-empty polling window of the store, one evaluation `p3` with alu_rst = 1,
and the non-empty polling window of the load; alu_rst = 0 at every evaluation
of the four windows. -/
theorem reset_protocol {σ : Type} (d : Dut σ) (tfp : Bool) (dut0 : σ) :
    ∃ (rs cfg a st ld : List Record) (p1 p2 p3 : Record),
      (main d tfp dut0).log = rs ++ (cfg ++ (p1 :: (a ++ (p2 :: (st ++ (p3 :: ld)))))) ∧
      (rs.length = 5 ∧ ∀ x ∈ rs, x.site = .reset ∧ x.pins.rst = true ∧
        x.pins.alu_rst = true ∧ x.pins.instr = 0) ∧
      (∀ x ∈ cfg ++ (p1 :: (a ++ (p2 :: (st ++ (p3 :: ld))))), x.pins.rst = false) ∧
      (cfg.length = 2 ∧ ∀ x ∈ cfg, x.site = .vsetvli ∧ x.pins.instr = instr_vsetvli ∧
        x.pins.alu_rst = false) ∧
      (p1.site = .pulse1 ∧ p1.pins.instr = instr_vsetvli ∧ p1.pins.alu_rst = true) ∧
      (a ≠ [] ∧ ∀ x ∈ a, (x.site = .vaddPoll ∨ x.site = .vaddSettle) ∧
        x.pins.instr = instr_vadd ∧ x.pins.alu_rst = false) ∧
      (p2.site = .pulse2 ∧ p2.pins.instr = instr_vadd ∧ p2.pins.alu_rst = true) ∧
      (st ≠ [] ∧ ∀ x ∈ st, x.site = .vsePoll ∧ x.pins.instr = instr_vse ∧
        x.pins.alu_rst = false) ∧
      (p3.site = .pulse3 ∧ p3.pins.instr = instr_vse ∧ p3.pins.alu_rst = true) ∧
      (ld ≠ [] ∧ ∀ x ∈ ld, x.site = .vlePoll ∧ x.pins.instr = instr_vle ∧
        x.pins.alu_rst = false) := by
  obtain ⟨ka, ra, ks, rs, kl, rl, v, hka, hra, hks, hrs, hkl, hrl, hlog, -⟩ :=
    main_shape d tfp dut0
  refine ⟨seg .reset true true 0 none 0 5,
    seg .vsetvli false false instr_vsetvli none 5 2,
    seg .vaddPoll false false instr_vadd (some false) 8 ka
      ++ (seg .vaddPoll false false instr_vadd (some true) (8 + ka) ra.toNat
      ++ seg .vaddSettle false false instr_vadd none (8 + ka + ra.toNat) (4 * ra.toNat)),
    seg .vsePoll false false instr_vse (some false) (9 + ka + 5 * ra.toNat) ks
      ++ seg .vsePoll false false instr_vse (some true) (9 + ka + 5 * ra.toNat + ks) rs.toNat,
    seg .vlePoll false false instr_vle (some false)
        (10 + ka + 5 * ra.toNat + ks + rs.toNat) kl
      ++ seg .vlePoll false false instr_vle (some true)
        (10 + ka + 5 * ra.toNat + ks + rs.toNat + kl) rl.toNat,
    ⟨.pulse1, ⟨clkAt 7, false, true, instr_vsetvli, 8⟩, none⟩,
    ⟨.pulse2, ⟨clkAt (8 + ka + 5 * ra.toNat), false, true, instr_vadd, 8⟩, none⟩,
    ⟨.pulse3, ⟨clkAt (9 + ka + 5 * ra.toNat + ks + rs.toNat), false, true, instr_vse, 8⟩, none⟩,
    ?_, ?_, ?_, ?_, ?_, ?_, ?_, ?_, ?_, ?_⟩
  · rw [hlog]
    simp only [runLog, seg_one, List.append_assoc, List.singleton_append]
  · refine ⟨seg_length _ _ _ _ _ _ _, ?_⟩
    intro x hx
    obtain ⟨j, -, rfl⟩ := mem_seg.1 hx
    exact ⟨rfl, rfl, rfl, rfl⟩
  · simp only [List.forall_mem_append, List.forall_mem_cons, forall_mem_seg]
    simp
  · refine ⟨seg_length _ _ _ _ _ _ _, ?_⟩
    intro x hx
    obtain ⟨j, -, rfl⟩ := mem_seg.1 hx
    exact ⟨rfl, rfl, rfl⟩
  · exact ⟨rfl, rfl, rfl⟩
  · refine ⟨?_, ?_⟩
    · intro h
      have := congrArg List.length h
      simp only [List.length_append, seg_length, List.length_nil] at this
      have := toNat_le_one ra
      cases ra with
      | false => have := hra rfl; omega
      | true => simp at *
    · simp only [List.forall_mem_append, List.forall_mem_cons, forall_mem_seg]
      simp
  · exact ⟨rfl, rfl, rfl⟩
  · refine ⟨?_, ?_⟩
    · intro h
      have := congrArg List.length h
      simp only [List.length_append, seg_length, List.length_nil] at this
      cases rs with
      | false => have := hrs rfl; omega
      | true => simp at *
    · simp only [List.forall_mem_append, List.forall_mem_cons, forall_mem_seg]
      simp
  · exact ⟨rfl, rfl, rfl⟩
  · refine ⟨?_, ?_⟩
    · intro h
      have := congrArg List.length h
      simp only [List.length_append, seg_length, List.length_nil] at this
      cases rl with
      | false => have := hrl rfl; omega
      | true => simp at *
    · simp only [List.forall_mem_append, List.forall_mem_cons, forall_mem_seg]
      simp

theorem pollReads_runLog (ka : Nat) (ra : Bool) (ks : Nat) (rs : Bool) (kl : Nat)
    (rl : Bool) :
    pollReads .vaddPoll (runLog ka ra ks rs kl rl)
        = List.replicate ka (some false) ++ List.replicate ra.toNat (some true) ∧
    siteCount .vaddSettle (runLog ka ra ks rs kl rl) = 4 * ra.toNat ∧
    pollReads .vsePoll (runLog ka ra ks rs kl rl)
        = List.replicate ks (some false) ++ List.replicate rs.toNat (some true) ∧
    pollReads .vlePoll (runLog ka ra ks rs kl rl)
        = List.replicate kl (some false) ++ List.replicate rl.toNat (some true) := by
  refine ⟨?_, ?_, ?_, ?_⟩ <;>
    simp [pollReads, siteCount, runLog, filter_site_seg, map_ready_seg, seg_length]

/-- C9: in every run each polling loop reads `ready` at most 100 times, every
reading before the last is false, and a loop that makes fewer than 100
readings ended on a true one; the add loop makes 4 further evaluations
exactly when it read true. The run makes between 17 and 314 evaluations, and
exactly 310 when `ready` is never read as true. (`main` is a total function,
so every run ends.) -/
theorem polling_is_bounded {σ : Type} (d : Dut σ) (tfp : Bool) (dut0 : σ) :
    (∃ (k : Nat) (b : Bool), k + b.toNat ≤ 100 ∧ (b = false → k = 100) ∧
      pollReads .vaddPoll (main d tfp dut0).log
        = List.replicate k (some false) ++ List.replicate b.toNat (some true) ∧
      siteCount .vaddSettle (main d tfp dut0).log = 4 * b.toNat) ∧
    (∃ (k : Nat) (b : Bool), k + b.toNat ≤ 100 ∧ (b = false → k = 100) ∧
      pollReads .vsePoll (main d tfp dut0).log
        = List.replicate k (some false) ++ List.replicate b.toNat (some true)) ∧
    (∃ (k : Nat) (b : Bool), k + b.toNat ≤ 100 ∧ (b = false → k = 100) ∧
      pollReads .vlePoll (main d tfp dut0).log
        = List.replicate k (some false) ++ List.replicate b.toNat (some true)) ∧
    (main d tfp dut0).log.length
      = 5 + 2 + 3 + (siteCount .vaddPoll (main d tfp dut0).log
          + siteCount .vaddSettle (main d tfp dut0).log)
        + siteCount .vsePoll (main d tfp dut0).log
        + siteCount .vlePoll (main d tfp dut0).log ∧
    17 ≤ (main d tfp dut0).log.length ∧ (main d tfp dut0).log.length ≤ 314 ∧
    ((∀ x ∈ (main d tfp dut0).log, x.ready ≠ some true) →
      (main d tfp dut0).log.length = 310) := by
  obtain ⟨ka, ra, ks, rs, kl, rl, v, hka, hra, hks, hrs, hkl, hrl, hlog, -⟩ :=
    main_shape d tfp dut0
  obtain ⟨e1, e2, e3, e4⟩ := pollReads_runLog ka ra ks rs kl rl
  rw [hlog]
  have ha := toNat_le_one ra
  have hs := toNat_le_one rs
  have hl := toNat_le_one rl
  have hra2 : ra.toNat = 0 → ka = 100 := by
    intro h; apply hra; cases ra <;> simp_all
  have hrs2 : rs.toNat = 0 → ks = 100 := by
    intro h; apply hrs; cases rs <;> simp_all
  have hrl2 : rl.toNat = 0 → kl = 100 := by
    intro h; apply hrl; cases rl <;> simp_all
  refine ⟨⟨ka, ra, hka, hra, e1, e2⟩, ⟨ks, rs, hks, hrs, e3⟩, ⟨kl, rl, hkl, hrl, e4⟩,
    ?_, ?_, ?_, ?_⟩
  · rw [length_runLog]
    simp [siteCount, runLog, filter_site_seg, seg_length]
    omega
  · rw [length_runLog]; omega
  · rw [length_runLog]; omega
  · intro h
    have h1 : ra = false := by
      rcases Bool.eq_false_or_eq_true ra with hb | hb
      · exact absurd rfl (h _ (true_read_mem .vaddPoll instr_vadd (8 + ka) ra hb
          vaddTrue_sub))
      · exact hb
    have h2 : rs = false := by
      rcases Bool.eq_false_or_eq_true rs with hb | hb
      · exact absurd rfl (h _ (true_read_mem .vsePoll instr_vse
          (9 + ka + 5 * ra.toNat + ks) rs hb vseTrue_sub))
      · exact hb
    have h3 : rl = false := by
      rcases Bool.eq_false_or_eq_true rl with hb | hb
      · exact absurd rfl (h _ (true_read_mem .vlePoll instr_vle
          (10 + ka + 5 * ra.toNat + ks + rs.toNat + kl) rl hb vleTrue_sub))
      · exact hb
    rw [length_runLog, hra h1, hrs h2, hrl h3, h1, h2, h3]
    rfl

set_option maxRecDepth 100000 in
/-- C9 at a model that never asserts `ready`: no evaluation reads `ready` as
true and the run makes 310 evaluations. -/
theorem polling_is_bounded_never_ready :
    (∀ x ∈ (main neverReady false ()).log, x.ready ≠ some true) ∧
    (main neverReady false ()).log.length = 310 :=
  ⟨by decide, (polling_is_bounded neverReady false ()).2.2.2.2.2.2 (by decide)⟩

/-! ## Handshake (C6) -/

set_option maxRecDepth 100000 in
/-- C6 as stated fails: with a model that never asserts `ready` the harness
presents all four words in turn although no evaluation read `ready` as true. -/
theorem advances_without_ready :
    (main neverReady false ()).log.map (fun x => x.pins.instr)
        = List.replicate 5 0 ++ (List.replicate 3 instr_vsetvli
          ++ (List.replicate 101 instr_vadd
          ++ (List.replicate 101 instr_vse ++ List.replicate 100 instr_vle))) ∧
    ∀ x ∈ (main neverReady false ()).log, x.ready ≠ some true := by
  decide

/-- C6 (amended): the configure word is on the pins at three evaluations and
`ready` is read at none of them; while the add word is on the pins either an evaluation read `ready` as
true or 100 polling evaluations read it as false, and likewise for the store
word; and the evaluations of each word all come before those of the next. -/
theorem waits_or_times_out {σ : Type} (d : Dut σ) (tfp : Bool) (dut0 : σ) :
    ((main d tfp dut0).log.filter fun x => decide (x.pins.instr = instr_vsetvli)).map
        (fun x => x.ready) = [none, none, none] ∧
    ((∃ x ∈ (main d tfp dut0).log,
        x.site = .vaddPoll ∧ x.pins.instr = instr_vadd ∧ x.ready = some true) ∨
      pollReads .vaddPoll (main d tfp dut0).log = List.replicate 100 (some false)) ∧
    ((∃ x ∈ (main d tfp dut0).log,
        x.site = .vsePoll ∧ x.pins.instr = instr_vse ∧ x.ready = some true) ∨
      pollReads .vsePoll (main d tfp dut0).log = List.replicate 100 (some false)) ∧
    (∃ n2 n3 n4 : Nat, 0 < n2 ∧ 0 < n3 ∧ 0 < n4 ∧
      (main d tfp dut0).log.map (fun x => x.pins.instr)
        = List.replicate 5 0 ++ (List.replicate 3 instr_vsetvli
          ++ (List.replicate n2 instr_vadd
          ++ (List.replicate n3 instr_vse ++ List.replicate n4 instr_vle)))) := by
  obtain ⟨ka, ra, ks, rs, kl, rl, v, hka, hra, hks, hrs, hkl, hrl, hlog, -⟩ :=
    main_shape d tfp dut0
  obtain ⟨e1, -, e3, -⟩ := pollReads_runLog ka ra ks rs kl rl
  rw [hlog]
  refine ⟨?_, ?_, ?_, ⟨ka + 5 * ra.toNat + 1, ks + rs.toNat + 1, kl + rl.toNat,
    by omega, by omega, ?_, map_instr_runLog ka ra ks rs kl rl⟩⟩
  · have n0 : (0 : Nat) ≠ instr_vsetvli := by decide
    have n1 : instr_vadd ≠ instr_vsetvli := by decide
    have n2 : instr_vse ≠ instr_vsetvli := by decide
    have n3 : instr_vle ≠ instr_vsetvli := by decide
    unfold runLog
    simp only [List.filter_append, filter_instr_seg, if_neg n0, if_neg n1, if_neg n2,
      if_neg n3, if_true, List.nil_append, List.append_nil, List.map_append, map_ready_seg]
    rfl
  · rcases Bool.eq_false_or_eq_true ra with hb | hb
    · exact Or.inl ⟨_, true_read_mem .vaddPoll instr_vadd (8 + ka) ra hb vaddTrue_sub,
        rfl, rfl, rfl⟩
    · right
      rw [e1, hra hb, hb]
      rfl
  · rcases Bool.eq_false_or_eq_true rs with hb | hb
    · exact Or.inl ⟨_, true_read_mem .vsePoll instr_vse (9 + ka + 5 * ra.toNat + ks) rs hb
        vseTrue_sub, rfl, rfl, rfl⟩
    · right
      rw [e3, hrs hb, hb]
      rfl
  · cases rl with
    | false => simp [hrl rfl]
    | true => simp

/-! ## Clock phase (C10) -/

set_option maxRecDepth 100000 in
/-- C10 as stated fails: with a model that never asserts `ready` (so `ready`
is read as true at no evaluation, in particular at none with clk = 0) the
second unit-reset pulse, evaluation 108, is evaluated with clk = 1 and
alu_rst = 1 right after evaluation 107 with clk = 0: a rising edge under
alu_rst = 1 after the initial reset. -/
theorem pulse_on_rising_edge :
    (∀ x ∈ (main neverReady false ()).log, x.ready = some true → x.pins.clk = true) ∧
    (main neverReady false ()).log[107]?.map (fun x => (x.site, x.pins.clk, x.pins.alu_rst))
      = some (.vaddPoll, false, false) ∧
    (main neverReady false ()).log[108]?.map (fun x => (x.site, x.pins.clk, x.pins.alu_rst))
      = some (.pulse2, true, true) := by
  decide

/-- C10 (amended): the clock value at evaluation `i` is 1 for even `i` and 0
for odd `i` (so an evaluation with clk = 1 is a rising edge and one with
clk = 0 a falling edge); the five reset evaluations see clk = 1, 0, 1, 0, 1,
the configure word is evaluated at clk = 0 and then clk = 1, and the first
unit-reset pulse at clk = 0; and in every run in which `ready` is read as
true only at evaluations with clk = 1 and both the add loop and the store
loop read `ready` as true, each of the three unit-reset pulses, and every
other evaluation after the initial reset with alu_rst = 1, has clk = 0. -/
theorem clock_phase {σ : Type} (d : Dut σ) (tfp : Bool) (dut0 : σ) :
    (main d tfp dut0).log.map (fun x => x.pins.clk)
      = (List.range (main d tfp dut0).log.length).map (fun i => decide (i % 2 = 0)) ∧
    ((main d tfp dut0).log.take 8).map (fun x => (x.site, x.pins.clk, x.pins.alu_rst))
      = [(.reset, true, true), (.reset, false, true), (.reset, true, true),
         (.reset, false, true), (.reset, true, true), (.vsetvli, false, false),
         (.vsetvli, true, false), (.pulse1, false, true)] ∧
    ((∀ x ∈ (main d tfp dut0).log, x.ready = some true → x.pins.clk = true) →
      (∃ x ∈ (main d tfp dut0).log, x.site = .vaddPoll ∧ x.ready = some true) →
      (∃ x ∈ (main d tfp dut0).log, x.site = .vsePoll ∧ x.ready = some true) →
      ∀ x ∈ (main d tfp dut0).log,
        (x.site = .pulse1 ∨ x.site = .pulse2 ∨ x.site = .pulse3 ∨
          (x.site ≠ .reset ∧ x.pins.alu_rst = true)) → x.pins.clk = false) := by
  obtain ⟨ka, ra, ks, rs, kl, rl, v, hka, hra, hks, hrs, hkl, hrl, hlog, -⟩ :=
    main_shape d tfp dut0
  obtain ⟨e1, -, e3, -⟩ := pollReads_runLog ka ra ks rs kl rl
  rw [hlog]
  refine ⟨?_, ?_, ?_⟩
  · have h := clkFrom_runLog ka ra ks rs kl rl
    unfold ClkFrom at h
    rw [h]
    simp [clkAt]
  · rw [take8_runLog]
    rfl
  · intro hclk ⟨x, hx, hxs, hxr⟩ ⟨y, hy, hys, hyr⟩
    have hra1 : ra = true := by
      cases hb : ra with
      | true => rfl
      | false =>
        have := mem_pollReads hx hxs
        rw [e1, hb, hxr] at this
        simp at this
    have hrs1 : rs = true := by
      cases hb : rs with
      | true => rfl
      | false =>
        have := mem_pollReads hy hys
        rw [e3, hb, hyr] at this
        simp at this
    have c1 := hclk _ (true_read_mem .vaddPoll instr_vadd (8 + ka) ra hra1 vaddTrue_sub) rfl
    have c2 := hclk _ (true_read_mem .vsePoll instr_vse (9 + ka + 5 * ra.toNat + ks) rs hrs1
      vseTrue_sub) rfl
    subst hra1 hrs1
    simp only [clkAt, decide_eq_true_eq, Bool.toNat_true] at c1 c2
    unfold runLog
    simp only [List.forall_mem_append, forall_mem_seg]
    simp [clkAt]
    omega

/-- C10 (amended) at a model that completes every instruction at the first
rising edge: `ready` is read as true only at clk = 1, the add and the store
loop both read it as true, and all three unit-reset pulses are evaluated with
clk = 0. -/
theorem clock_phase_prompt :
    (∀ x ∈ (main promptDut false initTop).log, x.ready = some true → x.pins.clk = true) ∧
    (∃ x ∈ (main promptDut false initTop).log, x.site = .vaddPoll ∧ x.ready = some true) ∧
    (∃ x ∈ (main promptDut false initTop).log, x.site = .vsePoll ∧ x.ready = some true) ∧
    (∀ x ∈ (main promptDut false initTop).log,
      (x.site = .pulse1 ∨ x.site = .pulse2 ∨ x.site = .pulse3 ∨
        (x.site ≠ .reset ∧ x.pins.alu_rst = true)) → x.pins.clk = false) :=
  ⟨by decide, by decide, by decide,
    (clock_phase promptDut false initTop).2.2 (by decide) (by decide) (by decide)⟩

/-! ## The printed result (C7) -/

/-- A list has at most one way to be split at an element satisfying `p` when
only one of its elements satisfies `p`. -/
theorem split_unique {α : Type} (p : α → Prop) :
    ∀ (A : List α) {t : α} {B pre : List α} {x : α} {post : List α},
      (∀ y ∈ A, ¬ p y) → (∀ y ∈ B, ¬ p y) → p x →
      A ++ t :: B = pre ++ x :: post → pre = A := by
  intro A
  induction A with
  | nil =>
    intro t B pre x post _ hB hx h
    cases pre with
    | nil => rfl
    | cons a pre =>
      simp only [List.nil_append, List.cons_append, List.cons.injEq] at h
      exact absurd hx (hB x (by rw [h.2]; simp))
  | cons a A ih =>
    intro t B pre x post hA hB hx h
    cases pre with
    | nil =>
      simp only [List.nil_append, List.cons_append, List.cons.injEq] at h
      exact absurd (h.1 ▸ hx) (hA a (by simp))
    | cons b pre =>
      simp only [List.cons_append, List.cons.injEq] at h
      rw [h.1, ih (fun y hy => hA y (by simp [hy])) hB hx h.2]

/-- In a run whose add loop read `ready` as true, the evaluation at which it
did so is evaluation `8 + ka`. -/
theorem vaddReady_position {ka ks : Nat} {rs : Bool} {kl : Nat} {rl : Bool}
    {pre : List Record} {x : Record} {post : List Record}
    (h : runLog ka true ks rs kl rl = pre ++ x :: post)
    (hs : x.site = .vaddPoll) (hr : x.ready = some true) : pre.length = 8 + ka := by
  have hsplit : runLog ka true ks rs kl rl
      = (seg .reset true true 0 none 0 5
        ++ (seg .vsetvli false false instr_vsetvli none 5 2
        ++ (seg .pulse1 false true instr_vsetvli none 7 1
        ++ seg .vaddPoll false false instr_vadd (some false) 8 ka)))
        ++ ⟨.vaddPoll, ⟨clkAt (8 + ka), false, false, instr_vadd, 8⟩, some true⟩
        :: (seg .vaddSettle false false instr_vadd none (8 + ka + 1) (4 * 1)
        ++ (seg .pulse2 false true instr_vadd none (8 + ka + 5 * 1) 1
        ++ (seg .vsePoll false false instr_vse (some false) (9 + ka + 5 * 1) ks
        ++ (seg .vsePoll false false instr_vse (some true) (9 + ka + 5 * 1 + ks) rs.toNat
        ++ (seg .pulse3 false true instr_vse none (9 + ka + 5 * 1 + ks + rs.toNat) 1
        ++ (seg .vlePoll false false instr_vle (some false)
              (10 + ka + 5 * 1 + ks + rs.toNat) kl
        ++ seg .vlePoll false false instr_vle (some true)
              (10 + ka + 5 * 1 + ks + rs.toNat + kl) rl.toNat)))))) := by
    simp only [runLog, Bool.toNat_true, List.append_assoc]
    rw [seg_one .vaddPoll false false instr_vadd (some true) (8 + ka)]
    rfl
  rw [hsplit] at h
  have hpre := split_unique (fun y : Record => y.site = .vaddPoll ∧ y.ready = some true) _
    (by simp only [List.forall_mem_append, forall_mem_seg]; simp)
    (by simp only [List.forall_mem_append, forall_mem_seg]; simp)
    ⟨hs, hr⟩ h
  rw [hpre]
  simp only [List.length_append, seg_length]
  omega

/-- C7: written to a stream with no pending field width, the print statement
of lines 63 to 69 appends, for every `vreg_out`, the text `vreg_out = 0x`,
then the words 15, 14, ..., 0, each as the eight lowercase hexadecimal digits
of its 32-bit value (leading zeros included) followed by one blank, then the
end of line. In every run the output is this line followed by at most the two
completion messages of the store and the load: the line is absent when the
add polling loop never read `ready` as true, and when it did, at evaluation
`x` of the history, the line shows `vreg_out` of the model in the state that
the evaluations up to and including `x` lead to. -/
theorem vreg_line_printed {σ : Type} (d : Dut σ) (tfp : Bool) (dut0 : σ) :
    (∀ v : Nat → Nat, (printVreg v OStream.init).text = vregLine v) ∧
    (∀ x : Nat, (hexWord x).length = 8 ∧ ∀ c ∈ hexWord x, c ∈ hexDigits) ∧
    (∃ tail : List Char,
      tail ∈ [[], "vse16.v complete\n".toList, "vle8.v complete\n".toList,
        "vse16.v complete\nvle8.v complete\n".toList] ∧
      ((¬ ∃ x ∈ (main d tfp dut0).log, x.site = .vaddPoll ∧ x.ready = some true) →
        (main d tfp dut0).cout.text = tail) ∧
      (∀ (pre : List Record) (x : Record) (post : List Record),
        (main d tfp dut0).log = pre ++ x :: post → x.site = .vaddPoll →
        x.ready = some true →
        (main d tfp dut0).cout.text
          = vregLine (d.vreg_out (dutAfter d dut0 (pre ++ [x]))) ++ tail)) := by
  refine ⟨?_, ?_, ?_⟩
  · intro v
    simpa using (printVreg_spec v OStream.init rfl).1
  · intro x
    refine ⟨rfl, ?_⟩
    intro c hc
    simp only [hexWord, List.mem_cons, List.mem_singleton, List.not_mem_nil, or_false] at hc
    rcases hc with h | h | h | h | h | h | h | h <;>
      (subst h; exact hexDigit_mem _ (Nat.mod_lt _ (by norm_num)))
  · obtain ⟨ka, ra, ks, rs, kl, rl, hka, hra, hks, hrs, hkl, hrl, hlog, hout⟩ :=
      main_run d tfp dut0
    obtain ⟨e1, -, -, -⟩ := pollReads_runLog ka ra ks rs kl rl
    have hra_of : ∀ x ∈ runLog ka ra ks rs kl rl, x.site = .vaddPoll →
        x.ready = some true → ra = true := by
      intro x hx hxs hxr
      rcases Bool.eq_false_or_eq_true ra with hb | hb
      · exact hb
      · have hm := mem_pollReads hx hxs
        rw [e1, hb, hxr] at hm
        simp at hm
    refine ⟨(if rs then "vse16.v complete\n".toList else [])
        ++ (if rl then "vle8.v complete\n".toList else []), ?_, ?_, ?_⟩
    · cases rs <;> cases rl <;> simp
    · intro hno
      have hb : ra = false := by
        rcases Bool.eq_false_or_eq_true ra with hb | hb
        · exact absurd ⟨_, hlog ▸ true_read_mem .vaddPoll instr_vadd (8 + ka) ra hb
            vaddTrue_sub, rfl, rfl⟩ hno
        · exact hb
      rw [hout, runOut_text, hb]
      simp
    · intro pre x post hsplit hxs hxr
      have hx : x ∈ runLog ka ra ks rs kl rl := by
        rw [← hlog, hsplit]; simp
      have hb : ra = true := hra_of x hx hxs hxr
      subst hb
      have hlen : pre.length = 8 + ka := by
        rw [hlog] at hsplit
        exact vaddReady_position hsplit hxs hxr
      have htake : (main d tfp dut0).log.take (9 + ka) = pre ++ [x] := by
        rw [hsplit]
        have h9 : 9 + ka = pre.length + 1 := by omega
        rw [h9, List.take_append_eq_append_take]
        simp
      rw [hout, runOut_text, htake]
      simp

set_option maxRecDepth 100000 in
/-- C7 at `countingDut`: the add loop reads `ready` as true at evaluation 8,
the ninth, and the line printed shows the words `16 * 9 + j` that the model
holds after nine evaluations. -/
theorem vreg_line_printed_counting :
    ∃ tail : List Char,
      (main countingDut false 0).cout.text = vregLine (fun j => 16 * 9 + j) ++ tail := by
  obtain ⟨tail, -, -, h⟩ := (vreg_line_printed countingDut false 0).2.2
  refine ⟨tail, ?_⟩
  have h1 := h ((main countingDut false 0).log.take 8)
    ⟨.vaddPoll, ⟨true, false, false, instr_vadd, 8⟩, some true⟩
    ((main countingDut false 0).log.drop 9) (by decide) rfl rfl
  have h9 : dutAfter countingDut 0 ((main countingDut false 0).log.take 8
      ++ [⟨.vaddPoll, ⟨true, false, false, instr_vadd, 8⟩, some true⟩]) = 9 := by
    decide
  rw [h9] at h1
  exact h1

/-! ## Two concrete runs -/

set_option maxRecDepth 100000 in
/-- With `promptDut` every loop ends at its first poll: 17 evaluations, and
the output is the `vreg_out` line followed by both completion messages. -/
theorem run_promptDut :
    (main promptDut false initTop).log.length = 17 ∧
    (main promptDut false initTop).cout.text
      = ("vreg_out = 0x0f0f0f0f 0e0e0e0e 0d0d0d0d 0c0c0c0c 0b0b0b0b 0a0a0a0a 09090909 "
          ++ "08080808 07070707 06060606 05050505 04040404 03030303 02020202 01010101 "
          ++ "00000000 \nvse16.v complete\nvle8.v complete\n").toList := by
  decide

set_option maxRecDepth 100000 in
/-- When `ready` is first asserted after evaluation 108, the 100th poll of the
add loop, and never again, the run makes 314 evaluations. -/
theorem run_longest :
    (main (oracle (fun n => n == 108) fun _ _ => 0) false 0).log.length = 314 := by
  decide

end RvvHarness
